import Mathlib

/-!
Verification development for the streaming conversation-tree engine of a
deep-research UI.  The definitions below are shallow embeddings of the
TypeScript source: the record/node data model (`types.ts`), the live-stream
ingestion function `processChunk`, the session-end sweeps in `stopGeneration`
and the `finally` block of `handleSearch`, the locally injected user-query
node, the history reconstruction function `processHistoryNode`, and the
blocking-scope (reparenting) variant of `processChunk`.

JavaScript truthiness on optional strings (`x || y`) is modelled explicitly:
`none` and `some ""` are falsy.  JavaScript `Map` objects holding mutable node
objects are modelled as functions `String → Option ResearchNode`; the one
place where object identity matters (a freshly created node whose parent
lookup finds the node itself, so that the later field mutations are applied to
an object no longer stored in the map) is modelled by the corresponding
branch.
-/

namespace DeepResearch

/-- `Role` enum from the source (`types.ts`). -/
inductive Role where
  | human
  | assistant
  | tool_call
  | tool
  | system
  | error
deriving DecidableEq, Repr

/-- `MessageType` enum from the source (`types.ts`): the `type` field of a
stream chunk. -/
inductive MessageType where
  | new
  | append
  | final
deriving DecidableEq, Repr

/-- The `status` field of a node: `'streaming' | 'completed' | 'error'`. -/
inductive NodeStatus where
  | streaming
  | completed
  | error
deriving DecidableEq, Repr

/-- `ResearchNode` from `types.ts`: one bubble of the tree.  `toolArgs` and
`toolResult` are optional in the source (they may be `undefined`), `content`
is always a string. -/
structure ResearchNode where
  id : String
  parentId : Option String
  role : Role
  name : String
  content : String
  toolArgs : Option String
  toolResult : Option String
  children : List String
  status : NodeStatus
  timestamp : Nat
  isFinal : Bool
deriving DecidableEq, Repr

/-- `ChunkMessage` from `types.ts`: one decoded live stream record. -/
structure Chunk where
  id : Option String
  parent_id : Option String
  role : Role
  name : Option String
  message : String
  type : MessageType
deriving DecidableEq, Repr

/-- JavaScript `x || null` on an optional string: `none` and `some ""` are
falsy and give `none`. -/
def optTruthy : Option String → Option String
  | none => none
  | some s => if s = "" then none else some s

/-- `const nodeId = id || 'unknown'` in `processChunk`. -/
def targetId (c : Chunk) : String :=
  match c.id with
  | none => "unknown"
  | some s => if s = "" then "unknown" else s

/-- The node store: the `nodes` map plus the `rootIds` list of the component
state. -/
structure Store where
  nodes : String → Option ResearchNode
  roots : List String

/-- `map.set(k, n)` on the node map. -/
def Store.set (st : Store) (k : String) (n : ResearchNode) : Store :=
  { st with nodes := fun k' => if k' = k then some n else st.nodes k' }

/-- The empty component state (`new Map()`, `[]`). -/
def emptyStore : Store := { nodes := fun _ => none, roots := [] }

/-- Steps 2–5 of `processChunk` (latest Visualization iteration): route the
message into the accumulator selected by the record's role (`tool` →
`toolResult`, also completing the node; `tool_call` → `toolArgs`; anything
else → `content`), then apply the strict terminal-marker check (`type ===
'final'` sets `status` and `isFinal`). -/
def routeChunk (c : Chunk) (n : ResearchNode) : ResearchNode :=
  let n1 : ResearchNode :=
    match c.role with
    | Role.tool =>
        { n with toolResult := some ((n.toolResult.getD "") ++ c.message),
                 status := NodeStatus.completed }
    | Role.tool_call =>
        { n with toolArgs := some ((n.toolArgs.getD "") ++ c.message) }
    | _ => { n with content := n.content ++ c.message }
  if c.type = MessageType.final then
    { n1 with status := if c.role = Role.error then NodeStatus.error
                        else NodeStatus.completed,
              isFinal := true }
  else n1

/-- The fresh node built by the creation branch of `processChunk`. -/
def freshNode (ts : Nat) (c : Chunk) : ResearchNode :=
  { id := targetId c
    parentId := optTruthy c.parent_id
    role := c.role
    name := (optTruthy c.name).getD "Unknown"
    content := ""
    children := []
    status := NodeStatus.streaming
    timestamp := ts
    toolArgs := some ""
    toolResult := some ""
    isFinal := false }

/-- `processChunk` of the latest Visualization iteration.  A record for an
existing id clones the node and routes the message into it; a record for a
fresh id creates the node, registers it under its (truthy) literal parent if
that parent exists, or in the root list if it has no truthy parent, and then
routes the message.

One faithful subtlety: when the record names itself as parent, the source
first stores the fresh node, then looks the parent up in the map — finding
the node itself — clones it, pushes the child id and stores the clone; the
subsequent accumulator mutations are applied to the original object, which is
no longer in the map, so the routed message is lost and the stored node keeps
its fresh (unrouted) fields with itself as its only child. -/
def processChunk (ts : Nat) (st : Store) (c : Chunk) : Store :=
  let nodeId := targetId c
  match st.nodes nodeId with
  | some existing => st.set nodeId (routeChunk c existing)
  | none =>
    let fresh := freshNode ts c
    match optTruthy c.parent_id with
    | some p =>
        if p = nodeId then
          st.set nodeId { fresh with children := [nodeId] }
        else
          let st1 := st.set nodeId (routeChunk c fresh)
          match st.nodes p with
          | some parent =>
              st1.set p (if nodeId ∈ parent.children then parent
                         else { parent with children := parent.children ++ [nodeId] })
          | none => st1
    | none =>
        let st1 := st.set nodeId (routeChunk c fresh)
        { st1 with roots := if nodeId ∈ st1.roots then st1.roots
                            else st1.roots ++ [nodeId] }

/-- Folding a whole stream of records through `processChunk` (the
`for await (const chunk of stream) processChunk(chunk)` loop). -/
def foldChunks (st : Store) (rs : List Chunk) : Store :=
  rs.foldl (processChunk 0) st

/-- The user-query node injected by `handleSearch` before the stream starts:
role `human`, status `'completed'`, no tool accumulators, and `isFinal`
already `true`. -/
def mkUserNode (q : String) (uid : String) (ts : Nat) : ResearchNode :=
  { id := uid
    parentId := none
    role := Role.human
    name := "User"
    content := q
    toolArgs := none
    toolResult := none
    children := []
    status := NodeStatus.completed
    timestamp := ts
    isFinal := true }

/-- `handleSearch` injecting the user node into the store:
`map.set(userMsgId, userNode)` followed by
`setRootIds(prev => [...prev, userMsgId])`. -/
def injectUserNode (st : Store) (q : String) (uid : String) (ts : Nat) : Store :=
  { nodes := (st.set uid (mkUserNode q uid ts)).nodes
    roots := st.roots ++ [uid] }

/-- The session-end sweep in the `finally` blocks of `handleSearch` and
`handleSelectHistory`: every node still `'streaming'` is set to `'error'`
when its role is `error`, and to `'completed'` otherwise. -/
def sweepFinally (st : Store) : Store :=
  { st with nodes := fun k =>
      match st.nodes k with
      | some n =>
          some (if n.status = NodeStatus.streaming then
                  { n with status := if n.role = Role.error then NodeStatus.error
                                     else NodeStatus.completed }
                else n)
      | none => none }

/-- The sweep in `stopGeneration` (cancellation): every node still
`'streaming'` is set to `'completed'`, with no role distinction. -/
def sweepStop (st : Store) : Store :=
  { st with nodes := fun k =>
      match st.nodes k with
      | some n =>
          some (if n.status = NodeStatus.streaming then
                  { n with status := NodeStatus.completed }
                else n)
      | none => none }

/-- `DisplayMessage` from `types.ts`: one persisted history record; `type` is
optional in history. -/
structure DisplayMsg where
  id : Option String
  parent_id : Option String
  role : Role
  name : Option String
  message : String
  type : Option MessageType
deriving DecidableEq, Repr

/-- `const nodeId = displayMsg.id || fallbackId` in `processHistoryNode`. -/
def histNodeId (m : DisplayMsg) (fallbackId : String) : String :=
  match m.id with
  | none => fallbackId
  | some s => if s = "" then fallbackId else s

/-- `const effectiveParentId = displayMsg.parent_id || parentId`. -/
def histEffParent (m : DisplayMsg) (parentId : Option String) : Option String :=
  match m.parent_id with
  | none => parentId
  | some s => if s = "" then parentId else some s

/-- The node built by the creation branch of `processHistoryNode`: content is
routed once by role, status is `'error'` for error records and `'completed'`
otherwise, and `isFinal` is set exactly when the record's `type` is the
terminal marker. -/
def histFreshNode (m : DisplayMsg) (parentId : Option String)
    (fallbackId : String) : ResearchNode :=
  { id := histNodeId m fallbackId
    parentId := histEffParent m parentId
    role := m.role
    name := (optTruthy m.name).getD
      (if m.role = Role.human then "User" else "Unknown")
    content := if m.role ≠ Role.tool_call ∧ m.role ≠ Role.tool then m.message else ""
    toolArgs := if m.role = Role.tool_call then some m.message else none
    toolResult := if m.role = Role.tool then some m.message else none
    children := []
    status := if m.role = Role.error then NodeStatus.error else NodeStatus.completed
    timestamp := 0
    isFinal := m.type = some MessageType.final }

/-- The merge branch of `processHistoryNode` for an id already present:
role-routed *replacement* of the accumulator (`node.toolResult = message`
etc.), plus setting `isFinal` when the merged record carries the terminal
marker. -/
def histMerge (m : DisplayMsg) (n : ResearchNode) : ResearchNode :=
  let n1 : ResearchNode :=
    match m.role with
    | Role.tool => { n with toolResult := some m.message }
    | Role.tool_call => { n with toolArgs := some m.message }
    | _ => { n with content := m.message }
  if m.type = some MessageType.final then { n1 with isFinal := true } else n1

/-- `processHistoryNode` from `handleSelectHistory`: create the node if its id
is fresh (registering it under its effective parent when that parent is
already in the temporary map, or in the temporary root list when it has no
truthy effective parent), else merge by role.  As in `processChunk`, a record
naming itself as parent finds its own fresh node as the parent and pushes the
id into its own children list. -/
def processHistoryNode (st : Store) (m : DisplayMsg) (parentId : Option String)
    (fallbackId : String) : Store :=
  let nodeId := histNodeId m fallbackId
  match st.nodes nodeId with
  | some n => st.set nodeId (histMerge m n)
  | none =>
    let node := histFreshNode m parentId fallbackId
    let st1 := st.set nodeId node
    match optTruthy (histEffParent m parentId) with
    | some p =>
        match st1.nodes p with
        | some parent =>
            st1.set p (if nodeId ∈ parent.children then parent
                       else { parent with children := parent.children ++ [nodeId] })
        | none => st1
    | none =>
        { st1 with roots := if nodeId ∈ st1.roots then st1.roots
                            else st1.roots ++ [nodeId] }

/-- The reconstruction loop of `handleSelectHistory` over one batch:
`entity.content.forEach((msg, index) => processHistoryNode(msg, null,
`${entity.message_uuid}_${index}`))`, with the running index made explicit. -/
def reconstructAux (uuid : String) (idx : Nat) (st : Store) :
    List DisplayMsg → Store
  | [] => st
  | m :: rest =>
      reconstructAux uuid (idx + 1)
        (processHistoryNode st m none (uuid ++ "_" ++ toString idx)) rest

/-- Reconstruction of a batch starting from the cleared store. -/
def reconstructBatch (uuid : String) (msgs : List DisplayMsg) : Store :=
  reconstructAux uuid 0 emptyStore msgs

/-!
Blocking-scope (reparenting) variant of `processChunk`, from the iteration
that tracks `activeBlockingToolId`.  The scope logic runs before the store
update: sighting a `tool_call` named `run_blocking_subagent` sets the scope
to the record's node id; while a (truthy) scope is active, a record whose
node id differs from the scope id gets the scope id as its effective parent
(when the literal `parent_id` already equals the scope id it is kept, which
is the same value); a `tool` record whose node id equals the scope id clears
the scope.  The store update is the accumulate-by-role engine, attaching
created nodes under the *effective* parent.
-/

/-- A record that opens (or replaces) a blocking scope:
`role === 'tool_call' && name === 'run_blocking_subagent'`. -/
def isTrigger (c : Chunk) : Prop :=
  c.role = Role.tool_call ∧ c.name = some "run_blocking_subagent"

instance (c : Chunk) : Decidable (isTrigger c) := by
  unfold isTrigger; infer_instance

/-- Scope after the trigger check (`activeBlockingToolId.current = nodeId`). -/
def scopeSight (sc : Option String) (c : Chunk) : Option String :=
  if isTrigger c then some (targetId c) else sc

/-- The effective parent computed by the reparenting resolver, given the
scope value after the trigger check. -/
def effParent (sc1 : Option String) (c : Chunk) : Option String :=
  match optTruthy sc1 with
  | some b => if targetId c ≠ b ∧ c.parent_id ≠ some b then some b else c.parent_id
  | none => c.parent_id

/-- The scope after the whole per-record scope logic: a `tool` record whose
node id equals the current scope id clears it. -/
def scopeAfter (sc : Option String) (c : Chunk) : Option String :=
  let sc1 := scopeSight sc c
  if c.role = Role.tool ∧ sc1 = some (targetId c) then none else sc1

/-- Routing of the scope-tracking iteration: same role-selected accumulation;
its `final` handling sets `status = 'completed'` only (that iteration has no
`isFinal` flag and no error-role case). -/
def routeChunk004 (c : Chunk) (n : ResearchNode) : ResearchNode :=
  let n1 : ResearchNode :=
    match c.role with
    | Role.tool =>
        { n with toolResult := some ((n.toolResult.getD "") ++ c.message),
                 status := NodeStatus.completed }
    | Role.tool_call =>
        { n with toolArgs := some ((n.toolArgs.getD "") ++ c.message) }
    | _ => { n with content := n.content ++ c.message }
  if c.type = MessageType.final then { n1 with status := NodeStatus.completed }
  else n1

/-- Ingestion state of the scope-tracking iteration: the store plus the
single mutable `activeBlockingToolId`. -/
structure ScState where
  scope : Option String
  store : Store

/-- The store half of the scope-tracking `processChunk`, parameterised by the
already-computed effective parent. -/
def applyChunk004 (ts : Nat) (st : Store) (c : Chunk) (eff : Option String) :
    Store :=
  let nodeId := targetId c
  match st.nodes nodeId with
  | some existing => st.set nodeId (routeChunk004 c existing)
  | none =>
    let fresh : ResearchNode :=
      { freshNode ts c with parentId := optTruthy eff }
    match optTruthy eff with
    | some p =>
        if p = nodeId then
          st.set nodeId { fresh with children := [nodeId] }
        else
          let st1 := st.set nodeId (routeChunk004 c fresh)
          match st.nodes p with
          | some parent =>
              st1.set p (if nodeId ∈ parent.children then parent
                         else { parent with children := parent.children ++ [nodeId] })
          | none => st1
    | none =>
        let st1 := st.set nodeId (routeChunk004 c fresh)
        { st1 with roots := if nodeId ∈ st1.roots then st1.roots
                            else st1.roots ++ [nodeId] }

/-- One record through the scope-tracking `processChunk`: scope sighting,
effective-parent substitution, scope clearing, then the store update. -/
def processChunk004 (ts : Nat) (s : ScState) (c : Chunk) : ScState :=
  let sc1 := scopeSight s.scope c
  let eff := effParent sc1 c
  let sc2 := if c.role = Role.tool ∧ sc1 = some (targetId c) then none else sc1
  { scope := sc2, store := applyChunk004 ts s.store c eff }

/-! ### Pointwise and equation lemmas -/

lemma Store.set_nodes (st : Store) (k : String) (n : ResearchNode) (k' : String) :
    (st.set k n).nodes k' = if k' = k then some n else st.nodes k' := rfl

lemma Store.set_roots (st : Store) (k : String) (n : ResearchNode) :
    (st.set k n).roots = st.roots := rfl

lemma routeChunk_role (c : Chunk) (n : ResearchNode) :
    (routeChunk c n).role = n.role := by
  rcases c with ⟨i, p, r, nm, m, t⟩
  cases r <;> cases t <;> rfl

lemma routeChunk_children (c : Chunk) (n : ResearchNode) :
    (routeChunk c n).children = n.children := by
  rcases c with ⟨i, p, r, nm, m, t⟩
  cases r <;> cases t <;> rfl

lemma routeChunk_content (c : Chunk) (n : ResearchNode) :
    (routeChunk c n).content =
      n.content ++ (if c.role ≠ Role.tool ∧ c.role ≠ Role.tool_call
                    then c.message else "") := by
  rcases c with ⟨i, p, r, nm, m, t⟩
  cases r <;> cases t <;> simp [routeChunk]

lemma routeChunk_toolArgs (c : Chunk) (n : ResearchNode) :
    (routeChunk c n).toolArgs =
      if c.role = Role.tool_call then some ((n.toolArgs.getD "") ++ c.message)
      else n.toolArgs := by
  rcases c with ⟨i, p, r, nm, m, t⟩
  cases r <;> cases t <;> simp [routeChunk]

lemma routeChunk_toolResult (c : Chunk) (n : ResearchNode) :
    (routeChunk c n).toolResult =
      if c.role = Role.tool then some ((n.toolResult.getD "") ++ c.message)
      else n.toolResult := by
  rcases c with ⟨i, p, r, nm, m, t⟩
  cases r <;> cases t <;> simp [routeChunk]

lemma routeChunk_isFinal (c : Chunk) (n : ResearchNode) :
    (routeChunk c n).isFinal =
      if c.type = MessageType.final then true else n.isFinal := by
  rcases c with ⟨i, p, r, nm, m, t⟩
  cases r <;> cases t <;> rfl

lemma processChunk_existing (ts : Nat) (st : Store) (c : Chunk)
    (n : ResearchNode) (h : st.nodes (targetId c) = some n) :
    processChunk ts st c = st.set (targetId c) (routeChunk c n) := by
  simp only [processChunk]
  rw [h]

lemma processChunk_fresh_root (ts : Nat) (st : Store) (c : Chunk)
    (h1 : st.nodes (targetId c) = none) (h2 : optTruthy c.parent_id = none) :
    processChunk ts st c =
      { st.set (targetId c) (routeChunk c (freshNode ts c)) with
        roots := if targetId c ∈ st.roots then st.roots
                 else st.roots ++ [targetId c] } := by
  simp only [processChunk]
  rw [h1, h2]
  rfl

lemma processChunk_fresh_self (ts : Nat) (st : Store) (c : Chunk)
    (h1 : st.nodes (targetId c) = none)
    (h2 : optTruthy c.parent_id = some (targetId c)) :
    processChunk ts st c =
      st.set (targetId c) { freshNode ts c with children := [targetId c] } := by
  simp only [processChunk]
  rw [h1, h2]
  simp

lemma processChunk_fresh_parent_found (ts : Nat) (st : Store) (c : Chunk)
    (p : String) (parent : ResearchNode)
    (h1 : st.nodes (targetId c) = none)
    (h2 : optTruthy c.parent_id = some p) (h3 : p ≠ targetId c)
    (h4 : st.nodes p = some parent) :
    processChunk ts st c =
      (st.set (targetId c) (routeChunk c (freshNode ts c))).set p
        (if targetId c ∈ parent.children then parent
         else { parent with children := parent.children ++ [targetId c] }) := by
  simp only [processChunk]
  rw [h1, h2]
  simp only [if_neg h3, h4]

lemma processChunk_fresh_parent_missing (ts : Nat) (st : Store) (c : Chunk)
    (p : String)
    (h1 : st.nodes (targetId c) = none)
    (h2 : optTruthy c.parent_id = some p) (h3 : p ≠ targetId c)
    (h4 : st.nodes p = none) :
    processChunk ts st c = st.set (targetId c) (routeChunk c (freshNode ts c)) := by
  simp only [processChunk]
  rw [h1, h2]
  simp only [if_neg h3, h4]

lemma processHistoryNode_merge (st : Store) (m : DisplayMsg)
    (pid : Option String) (fb : String) (n : ResearchNode)
    (h : st.nodes (histNodeId m fb) = some n) :
    processHistoryNode st m pid fb = st.set (histNodeId m fb) (histMerge m n) := by
  simp only [processHistoryNode]
  rw [h]

lemma processHistoryNode_fresh_root (st : Store) (m : DisplayMsg)
    (pid : Option String) (fb : String)
    (h1 : st.nodes (histNodeId m fb) = none)
    (h2 : optTruthy (histEffParent m pid) = none) :
    processHistoryNode st m pid fb =
      { st.set (histNodeId m fb) (histFreshNode m pid fb) with
        roots := if histNodeId m fb ∈ st.roots then st.roots
                 else st.roots ++ [histNodeId m fb] } := by
  simp only [processHistoryNode]
  rw [h1, h2]
  rfl

lemma processHistoryNode_fresh_parent (st : Store) (m : DisplayMsg)
    (pid : Option String) (fb : String) (p : String)
    (h1 : st.nodes (histNodeId m fb) = none)
    (h2 : optTruthy (histEffParent m pid) = some p) :
    processHistoryNode st m pid fb =
      (let st1 := st.set (histNodeId m fb) (histFreshNode m pid fb)
       match st1.nodes p with
       | some parent =>
           st1.set p (if histNodeId m fb ∈ parent.children then parent
                      else { parent with
                             children := parent.children ++ [histNodeId m fb] })
       | none => st1) := by
  simp only [processHistoryNode]
  rw [h1, h2]

lemma routeChunk004_parentId (c : Chunk) (n : ResearchNode) :
    (routeChunk004 c n).parentId = n.parentId := by
  rcases c with ⟨i, p, r, nm, m, t⟩
  cases r <;> cases t <;> rfl

lemma applyChunk004_fresh_parentId (ts : Nat) (st : Store) (c : Chunk)
    (eff : Option String) (h1 : st.nodes (targetId c) = none) :
    ((applyChunk004 ts st c eff).nodes (targetId c)).map (fun n => n.parentId) =
      some (optTruthy eff) := by
  simp only [applyChunk004]
  rw [h1]
  rcases h2 : optTruthy eff with _ | p
  · simp [Store.set_nodes, routeChunk004_parentId, freshNode]
  · by_cases h3 : p = targetId c
    · subst h3
      simp [Store.set_nodes, freshNode]
    · rcases h4 : st.nodes p with _ | parent <;>
        simp [h4, Store.set_nodes, Ne.symm h3, h3, routeChunk004_parentId, freshNode]

/-- Frame property of `processChunk` at a key other than the record's target:
the entry is unchanged, except that the parent of a freshly created node gains
the new id in its `children`. -/
lemma processChunk_nodes_other (ts : Nat) (st : Store) (c : Chunk) (i : String)
    (hne : i ≠ targetId c) :
    (processChunk ts st c).nodes i = st.nodes i ∨
    (∃ parent, st.nodes i = some parent ∧ st.nodes (targetId c) = none ∧
       (processChunk ts st c).nodes i =
         some { parent with children := parent.children ++ [targetId c] }) := by
  rcases hT : st.nodes (targetId c) with _ | ex
  · rcases hP : optTruthy c.parent_id with _ | p
    · left
      rw [processChunk_fresh_root ts st c hT hP]
      simp [Store.set_nodes, hne]
    · by_cases hps : p = targetId c
      · subst hps
        left
        rw [processChunk_fresh_self ts st c hT hP]
        simp [Store.set_nodes, hne]
      · rcases hpar : st.nodes p with _ | parent
        · left
          rw [processChunk_fresh_parent_missing ts st c p hT hP hps hpar]
          simp [Store.set_nodes, hne]
        · by_cases hip : i = p
          · subst hip
            rw [processChunk_fresh_parent_found ts st c i parent hT hP hps hpar]
            by_cases hm : targetId c ∈ parent.children
            · left
              simp [Store.set_nodes, hne, hm, hpar]
            · right
              exact ⟨parent, hpar, rfl, by simp [Store.set_nodes, hne, hm]⟩
          · left
            rw [processChunk_fresh_parent_found ts st c p parent hT hP hps hpar]
            simp [Store.set_nodes, hne, hip]
  · left
    rw [processChunk_existing ts st c ex hT]
    simp [Store.set_nodes, hne]

/-- The target entry after a record for an existing id. -/
lemma processChunk_nodes_target_existing (ts : Nat) (st : Store) (c : Chunk)
    (n : ResearchNode) (h : st.nodes (targetId c) = some n) :
    (processChunk ts st c).nodes (targetId c) = some (routeChunk c n) := by
  rw [processChunk_existing ts st c n h]
  simp [Store.set_nodes]

/-- The target entry after a record creating a fresh node that does not name
itself as parent: the routed fresh node. -/
lemma processChunk_nodes_target_fresh (ts : Nat) (st : Store) (c : Chunk)
    (h1 : st.nodes (targetId c) = none)
    (h2 : optTruthy c.parent_id ≠ some (targetId c)) :
    (processChunk ts st c).nodes (targetId c) =
      some (routeChunk c (freshNode ts c)) := by
  rcases hP : optTruthy c.parent_id with _ | p
  · rw [processChunk_fresh_root ts st c h1 hP]
    simp [Store.set_nodes]
  · have hps : p ≠ targetId c := by
      intro hc
      exact h2 (by rw [hP, hc])
    rcases hpar : st.nodes p with _ | parent
    · rw [processChunk_fresh_parent_missing ts st c p h1 hP hps hpar]
      simp [Store.set_nodes]
    · rw [processChunk_fresh_parent_found ts st c p parent h1 hP hps hpar]
      simp [Store.set_nodes, hps, Ne.symm hps]

/-! ### Claim C4 -/

/-- Record creating a tool node (its `tool` routing immediately sets
`status = 'completed'`). -/
def c4rec1 : Chunk :=
  { id := some "a", parent_id := none, role := Role.tool, name := none,
    message := "x", type := MessageType.new }

/-- A later append for the same node, arriving after its status left
`'streaming'`. -/
def c4rec2 : Chunk :=
  { id := some "a", parent_id := none, role := Role.tool, name := none,
    message := "y", type := MessageType.append }

/-- C4, counterexample: after `c4rec1` the node has `status = 'completed'`
and `toolResult = "x"`; the claim says the accumulators are then frozen and
further appends are ignored, but applying `c4rec2` still appends, giving
`toolResult = "xy"`.  No freeze check exists in `processChunk`. -/
theorem C4_counterexample :
    ((foldChunks emptyStore [c4rec1]).nodes "a").map
        (fun n => (n.status, n.toolResult)) =
      some (NodeStatus.completed, some "x") ∧
    ((foldChunks emptyStore [c4rec1, c4rec2]).nodes "a").map
        (fun n => n.toolResult) = some (some "xy") ∧
    (some "xy" : Option String) ≠ some "x" := by
  refine ⟨by decide, by decide, by decide⟩

/-- C4, amended: the accumulators `content`, `toolArgs` and `toolResult` grow
monotonically (append-only) at every applied record, regardless of the node's
status; no freeze is enforced — a record routed to a node whose status is no
longer `'streaming'` is applied exactly like any other (`n' = routeChunk c n`,
with no status check). -/
theorem C4_accumulators_grow_without_freeze (ts : Nat) (st : Store) (c : Chunk)
    (i : String) (n n' : ResearchNode)
    (h1 : st.nodes i = some n)
    (h2 : (processChunk ts st c).nodes i = some n') :
    (∃ t, n'.content = n.content ++ t) ∧
    (∃ t, n'.toolArgs.getD "" = n.toolArgs.getD "" ++ t) ∧
    (∃ t, n'.toolResult.getD "" = n.toolResult.getD "" ++ t) ∧
    (targetId c = i → n' = routeChunk c n) := by
  by_cases hi : i = targetId c
  · subst hi
    rw [processChunk_nodes_target_existing ts st c n h1] at h2
    have hn' : n' = routeChunk c n := (Option.some.inj h2).symm
    subst hn'
    refine ⟨?_, ?_, ?_, fun _ => rfl⟩
    · rw [routeChunk_content]
      exact ⟨_, rfl⟩
    · rw [routeChunk_toolArgs]
      split
      · exact ⟨c.message, by simp⟩
      · exact ⟨"", by simp⟩
    · rw [routeChunk_toolResult]
      split
      · exact ⟨c.message, by simp⟩
      · exact ⟨"", by simp⟩
  · rcases processChunk_nodes_other ts st c i hi with heq | ⟨parent, hp, _, heq⟩
    · rw [heq, h1] at h2
      have hn' : n' = n := (Option.some.inj h2).symm
      subst hn'
      exact ⟨⟨"", by simp⟩, ⟨"", by simp⟩, ⟨"", by simp⟩,
        fun hti => absurd hti.symm hi⟩
    · rw [h1] at hp
      have hpn : parent = n := (Option.some.inj hp).symm
      subst hpn
      rw [heq] at h2
      have hn' : n' = { parent with children := parent.children ++ [targetId c] } :=
        (Option.some.inj h2).symm
      subst hn'
      exact ⟨⟨"", by simp⟩, ⟨"", by simp⟩, ⟨"", by simp⟩,
        fun hti => absurd hti.symm hi⟩

/-- Witness for C4's amended theorem at a concrete frozen node. -/
theorem C4_accumulators_grow_without_freeze_witness :
    (∃ t, "xy" = "x" ++ t) := by
  have h := C4_accumulators_grow_without_freeze 0 (foldChunks emptyStore [c4rec1])
    c4rec2 "a"
    { id := "a", parentId := none, role := Role.tool, name := "Unknown",
      content := "", toolArgs := some "", toolResult := some "x",
      children := [], status := NodeStatus.completed, timestamp := 0,
      isFinal := false }
    { id := "a", parentId := none, role := Role.tool, name := "Unknown",
      content := "", toolArgs := some "", toolResult := some "xy",
      children := [], status := NodeStatus.completed, timestamp := 0,
      isFinal := false }
    (by decide) (by decide)
  simpa using h.2.2.1

/-! ### Claim C5 -/

/-- A node whose role is `error`, still streaming when the session is
cancelled. -/
def c5errNode : ResearchNode :=
  { id := "e", parentId := none, role := Role.error, name := "Err",
    content := "boom", toolArgs := none, toolResult := none, children := [],
    status := NodeStatus.streaming, timestamp := 0, isFinal := false }

/-- C5, counterexample: the cancellation sweep of `stopGeneration` sets a
streaming node whose role is `error` to `'completed'`, not `'error'` as the
claim requires for that ending path. -/
theorem C5_counterexample :
    ((sweepStop (emptyStore.set "e" c5errNode)).nodes "e").map
        (fun n => n.status) = some NodeStatus.completed ∧
    NodeStatus.completed ≠ NodeStatus.error := by
  exact ⟨by decide, by decide⟩

/-- C5, amended: after either session-end sweep no node is left
`'streaming'`.  The `finally` sweeps of `handleSearch`/`handleSelectHistory`
map a streaming node to `'error'` when its role is `error` and to
`'completed'` otherwise; the `stopGeneration` cancellation sweep maps every
streaming node to `'completed'` regardless of role. -/
theorem C5_no_streaming_after_sweeps (st : Store) (i : String) :
    (∀ n', (sweepFinally st).nodes i = some n' →
       n'.status ≠ NodeStatus.streaming) ∧
    (∀ n', (sweepStop st).nodes i = some n' →
       n'.status ≠ NodeStatus.streaming) ∧
    (∀ n, st.nodes i = some n → n.status = NodeStatus.streaming →
       (sweepFinally st).nodes i =
         some { n with status := if n.role = Role.error then NodeStatus.error
                                 else NodeStatus.completed } ∧
       (sweepStop st).nodes i = some { n with status := NodeStatus.completed }) := by
  refine ⟨?_, ?_, ?_⟩
  · intro n' h
    rcases hn : st.nodes i with _ | n
    · simp [sweepFinally, hn] at h
    · simp only [sweepFinally, hn] at h
      have hn' := (Option.some.inj h).symm
      subst hn'
      split
      · split <;> simp
      · next hns => exact hns
  · intro n' h
    rcases hn : st.nodes i with _ | n
    · simp [sweepStop, hn] at h
    · simp only [sweepStop, hn] at h
      have hn' := (Option.some.inj h).symm
      subst hn'
      split
      · simp
      · next hns => exact hns
  · intro n hn hs
    constructor
    · simp [sweepFinally, hn, hs]
    · simp [sweepStop, hn, hs]

/-- Witness for C5's amended theorem at a concrete streaming error node. -/
theorem C5_no_streaming_after_sweeps_witness :
    (sweepFinally (emptyStore.set "e" c5errNode)).nodes "e" =
      some { c5errNode with status := NodeStatus.error } ∧
    (sweepStop (emptyStore.set "e" c5errNode)).nodes "e" =
      some { c5errNode with status := NodeStatus.completed } := by
  have h := (C5_no_streaming_after_sweeps (emptyStore.set "e" c5errNode) "e").2.2
    c5errNode (by decide) (by decide)
  simpa [c5errNode] using h

/-! ### Claim C7 -/

/-- C7: a `kind = 'new'` record for an id already in the store never resets
the accumulated text: the record falls through to the ordinary update logic
(`n' = routeChunk c n`, the same clone-and-route as any other record), so the
previously accumulated `content`, `toolArgs` and `toolResult` are preserved
as prefixes (the routed accumulator is appended to, the others are
untouched). -/
theorem C7_duplicate_new_preserves_accumulated (ts : Nat) (st : Store)
    (c : Chunk) (n : ResearchNode)
    (h1 : st.nodes (targetId c) = some n) (h2 : c.type = MessageType.new) :
    (processChunk ts st c).nodes (targetId c) = some (routeChunk c n) ∧
    (∃ t, (routeChunk c n).content = n.content ++ t) ∧
    (∃ t, (routeChunk c n).toolArgs.getD "" = n.toolArgs.getD "" ++ t) ∧
    (∃ t, (routeChunk c n).toolResult.getD "" = n.toolResult.getD "" ++ t) := by
  refine ⟨processChunk_nodes_target_existing ts st c n h1, ?_, ?_, ?_⟩
  · rw [routeChunk_content]
    exact ⟨_, rfl⟩
  · rw [routeChunk_toolArgs]
    split
    · exact ⟨c.message, by simp⟩
    · exact ⟨"", by simp⟩
  · rw [routeChunk_toolResult]
    split
    · exact ⟨c.message, by simp⟩
    · exact ⟨"", by simp⟩

/-- A node holding accumulated text, target of a duplicate `new` record. -/
def c7node : ResearchNode :=
  { id := "n7", parentId := none, role := Role.assistant, name := "A",
    content := "abc", toolArgs := some "\x7b", toolResult := some "r",
    children := [], status := NodeStatus.streaming, timestamp := 0,
    isFinal := false }

/-- The duplicate `new` record for the existing id. -/
def c7rec : Chunk :=
  { id := some "n7", parent_id := none, role := Role.assistant, name := none,
    message := "xyz", type := MessageType.new }

/-- Witness for C7 at a concrete node with accumulated text. -/
theorem C7_duplicate_new_preserves_accumulated_witness :
    (processChunk 0 (emptyStore.set "n7" c7node) c7rec).nodes (targetId c7rec) =
      some (routeChunk c7rec c7node) ∧
    (∃ t, (routeChunk c7rec c7node).content = c7node.content ++ t) ∧
    (∃ t, (routeChunk c7rec c7node).toolArgs.getD "" =
            c7node.toolArgs.getD "" ++ t) ∧
    (∃ t, (routeChunk c7rec c7node).toolResult.getD "" =
            c7node.toolResult.getD "" ++ t) :=
  C7_duplicate_new_preserves_accumulated 0 (emptyStore.set "n7" c7node) c7rec
    c7node (by decide) (by decide)

/-! ### Claim C8 -/

/-- C8: when a `tool` (tool-result) record carries the id of an existing
`tool_call` node, the merged node keeps role `tool_call`, the result text
goes only into `toolResult` (appended), and `toolArgs` and `content` are
untouched; symmetrically, a `tool_call` append touches only `toolArgs`,
leaving `toolResult`, `content` and the role unchanged. -/
theorem C8_call_result_merge_frame (ts : Nat) (st : Store) (i : String)
    (n : ResearchNode) (r r' : Chunk)
    (hn : st.nodes i = some n) (hrole : n.role = Role.tool_call)
    (hr1 : r.role = Role.tool) (hr2 : targetId r = i)
    (hs1 : r'.role = Role.tool_call) (hs2 : targetId r' = i) :
    (∃ m, (processChunk ts st r).nodes i = some m ∧
       m.role = Role.tool_call ∧
       m.toolResult = some ((n.toolResult.getD "") ++ r.message) ∧
       m.toolArgs = n.toolArgs ∧ m.content = n.content) ∧
    (∃ m, (processChunk ts st r').nodes i = some m ∧
       m.role = Role.tool_call ∧
       m.toolArgs = some ((n.toolArgs.getD "") ++ r'.message) ∧
       m.toolResult = n.toolResult ∧ m.content = n.content) := by
  constructor
  · have h := processChunk_nodes_target_existing ts st r n (by rw [hr2]; exact hn)
    rw [hr2] at h
    refine ⟨routeChunk r n, h, ?_, ?_, ?_, ?_⟩
    · rw [routeChunk_role, hrole]
    · rw [routeChunk_toolResult, if_pos hr1]
    · rw [routeChunk_toolArgs, if_neg (by rw [hr1]; intro hc; cases hc)]
    · rw [routeChunk_content, if_neg (by rw [hr1]; simp), String.append_empty]
  · have h := processChunk_nodes_target_existing ts st r' n (by rw [hs2]; exact hn)
    rw [hs2] at h
    refine ⟨routeChunk r' n, h, ?_, ?_, ?_, ?_⟩
    · rw [routeChunk_role, hrole]
    · rw [routeChunk_toolArgs, if_pos hs1]
    · rw [routeChunk_toolResult, if_neg (by rw [hs1]; intro hc; cases hc)]
    · rw [routeChunk_content, if_neg (by rw [hs1]; simp), String.append_empty]

/-- A tool-call node with accumulated arguments, awaiting its result. -/
def c8node : ResearchNode :=
  { id := "b", parentId := none, role := Role.tool_call, name := "search",
    content := "", toolArgs := some "\x7bq\x7d", toolResult := some "",
    children := [], status := NodeStatus.streaming, timestamp := 0,
    isFinal := false }

/-- The tool-result record sharing the call's id. -/
def c8res : Chunk :=
  { id := some "b", parent_id := none, role := Role.tool, name := none,
    message := "results", type := MessageType.append }

/-- A further argument append for the same id. -/
def c8arg : Chunk :=
  { id := some "b", parent_id := none, role := Role.tool_call, name := none,
    message := "!", type := MessageType.append }

/-- Witness for C8 at a concrete call/result pair. -/
theorem C8_call_result_merge_frame_witness :
    (∃ m, (processChunk 0 (emptyStore.set "b" c8node) c8res).nodes "b" = some m ∧
       m.role = Role.tool_call ∧
       m.toolResult = some ((c8node.toolResult.getD "") ++ c8res.message) ∧
       m.toolArgs = c8node.toolArgs ∧ m.content = c8node.content) ∧
    (∃ m, (processChunk 0 (emptyStore.set "b" c8node) c8arg).nodes "b" = some m ∧
       m.role = Role.tool_call ∧
       m.toolArgs = some ((c8node.toolArgs.getD "") ++ c8arg.message) ∧
       m.toolResult = c8node.toolResult ∧ m.content = c8node.content) :=
  C8_call_result_merge_frame 0 (emptyStore.set "b" c8node) "b" c8node c8res c8arg
    (by decide) (by decide) (by decide) (by decide) (by decide) (by decide)

/-! ### Claim C9 -/

/-- C9: a live record whose `id` is null/undefined or the empty string is
keyed under the literal id `'unknown'`; when an `'unknown'` node already
exists, such a record merges into it (routing by role) instead of creating a
new node, so all id-less records of a session accumulate into that one shared
node. -/
theorem C9_idless_records_key_unknown (c : Chunk)
    (h : c.id = none ∨ c.id = some "") :
    targetId c = "unknown" ∧
    (∀ ts st n, st.nodes "unknown" = some n →
       (processChunk ts st c).nodes "unknown" = some (routeChunk c n)) := by
  have ht : targetId c = "unknown" := by
    rcases h with h | h <;> simp [targetId, h]
  refine ⟨ht, ?_⟩
  intro ts st n hn
  have h2 := processChunk_nodes_target_existing ts st c n (by rw [ht]; exact hn)
  rw [ht] at h2
  exact h2

/-- An id-less record (empty-string id). -/
def c9rec : Chunk :=
  { id := some "", parent_id := none, role := Role.assistant, name := none,
    message := "tail", type := MessageType.append }

/-- The shared `'unknown'` node accumulated so far. -/
def c9node : ResearchNode :=
  { id := "unknown", parentId := none, role := Role.assistant,
    name := "Unknown", content := "head ", toolArgs := some "",
    toolResult := some "", children := [], status := NodeStatus.streaming,
    timestamp := 0, isFinal := false }

/-- Witness for C9: the empty-id record lands on the shared `'unknown'`
node. -/
theorem C9_idless_records_key_unknown_witness :
    targetId c9rec = "unknown" ∧
    (processChunk 0 (emptyStore.set "unknown" c9node) c9rec).nodes "unknown" =
      some (routeChunk c9rec c9node) := by
  have h := C9_idless_records_key_unknown c9rec (Or.inr (by decide))
  exact ⟨h.1, h.2 0 (emptyStore.set "unknown" c9node) c9node (by decide)⟩

/-! ### Claim C1 -/

/-- The node stored at `i` exists and carries the terminal flag. -/
def IsFinalAt (st : Store) (i : String) : Prop :=
  ∃ n, st.nodes i = some n ∧ n.isFinal = true

/-- One-step characterisation of the terminal flag: a record sets `isFinal`
on its target exactly when it carries `type = 'final'`, and never clears it.
The hypothesis excludes records naming themselves as parent (whose routing,
including the final check, is lost on creation — see `processChunk`). -/
lemma isFinalAt_processChunk (ts : Nat) (st : Store) (c : Chunk) (i : String)
    (hns : optTruthy c.parent_id ≠ some (targetId c)) :
    IsFinalAt (processChunk ts st c) i ↔
      IsFinalAt st i ∨ (targetId c = i ∧ c.type = MessageType.final) := by
  by_cases hi : i = targetId c
  · subst hi
    rcases hT : st.nodes (targetId c) with _ | n
    · have h2 := processChunk_nodes_target_fresh ts st c hT hns
      constructor
      · rintro ⟨n', hsome, hfin⟩
        rw [h2] at hsome
        have hn' := (Option.some.inj hsome).symm
        subst hn'
        rw [routeChunk_isFinal] at hfin
        by_cases hf : c.type = MessageType.final
        · exact Or.inr ⟨rfl, hf⟩
        · rw [if_neg hf] at hfin
          simp [freshNode] at hfin
      · rintro (⟨n', hsome, -⟩ | ⟨-, hfin⟩)
        · rw [hT] at hsome
          cases hsome
        · exact ⟨routeChunk c (freshNode ts c), h2,
            by rw [routeChunk_isFinal, if_pos hfin]⟩
    · have h2 := processChunk_nodes_target_existing ts st c n hT
      constructor
      · rintro ⟨n', hsome, hfin⟩
        rw [h2] at hsome
        have hn' := (Option.some.inj hsome).symm
        subst hn'
        rw [routeChunk_isFinal] at hfin
        by_cases hf : c.type = MessageType.final
        · exact Or.inr ⟨rfl, hf⟩
        · rw [if_neg hf] at hfin
          exact Or.inl ⟨n, hT, hfin⟩
      · rintro (⟨n', hsome, hfin⟩ | ⟨-, hfin⟩)
        · rw [hT] at hsome
          have hn' := (Option.some.inj hsome).symm
          subst hn'
          refine ⟨routeChunk c n', h2, ?_⟩
          rw [routeChunk_isFinal]
          split
          · rfl
          · exact hfin
        · exact ⟨routeChunk c n, h2, by rw [routeChunk_isFinal, if_pos hfin]⟩
  · rcases processChunk_nodes_other ts st c i hi with heq | ⟨parent, hp, -, heq⟩
    · constructor
      · rintro ⟨n', h1, hfin⟩
        rw [heq] at h1
        exact Or.inl ⟨n', h1, hfin⟩
      · rintro (⟨n', h1, hfin⟩ | ⟨hti, -⟩)
        · exact ⟨n', by rw [heq]; exact h1, hfin⟩
        · exact absurd hti.symm hi
    · constructor
      · rintro ⟨n', h1, hfin⟩
        rw [heq] at h1
        have hn' := (Option.some.inj h1).symm
        subst hn'
        exact Or.inl ⟨parent, hp, hfin⟩
      · rintro (⟨n', h1, hfin⟩ | ⟨hti, -⟩)
        · rw [hp] at h1
          have hn' := (Option.some.inj h1).symm
          subst hn'
          exact ⟨_, heq, hfin⟩
        · exact absurd hti.symm hi

/-- Fold of `isFinalAt_processChunk` over a whole stream. -/
lemma isFinalAt_foldChunks (rs : List Chunk) (st : Store) (i : String)
    (h : ∀ r ∈ rs, optTruthy r.parent_id ≠ some (targetId r)) :
    IsFinalAt (foldChunks st rs) i ↔
      IsFinalAt st i ∨ ∃ r ∈ rs, targetId r = i ∧ r.type = MessageType.final := by
  induction rs generalizing st with
  | nil => simp [foldChunks]
  | cons r rest ih =>
      have hstep := isFinalAt_processChunk 0 st r i (h r (by simp))
      have hrest := ih (processChunk 0 st r) (fun r' hr' => h r' (by simp [hr']))
      have hfold : foldChunks st (r :: rest) =
          foldChunks (processChunk 0 st r) rest := rfl
      rw [hfold, hrest, hstep]
      constructor
      · rintro ((hA | ⟨hti, hty⟩) | ⟨r', hr', h1, h2⟩)
        · exact Or.inl hA
        · exact Or.inr ⟨r, by simp, hti, hty⟩
        · exact Or.inr ⟨r', by simp [hr'], h1, h2⟩
      · rintro (hA | ⟨r', hr', h1, h2⟩)
        · exact Or.inl (Or.inl hA)
        · rcases List.mem_cons.mp hr' with rfl | hr''
          · exact Or.inl (Or.inr ⟨h1, h2⟩)
          · exact Or.inr ⟨r', hr'', h1, h2⟩

/-- C1, counterexample: the user-query node injected by `handleSearch` is
created with `isFinal = true` although no record at all — in particular no
record carrying the terminal marker — was applied for its id (the stream
fold is empty), contradicting the claim's "including nodes created outside
the stream". -/
theorem C1_counterexample :
    IsFinalAt (injectUserNode (foldChunks emptyStore []) "find X" "human-1" 0)
      "human-1" :=
  ⟨mkUserNode "find X" "human-1" 0, by decide, by decide⟩

/-- C1, amended: for every node built by the stream processor from records
that do not name themselves as parent, `isFinal` is true iff a record with
`type = 'final'` was applied for that node's id; no record lacking the
marker, and no role or content shape, ever sets it.  (The locally injected
user-query node is the exception: it is created with `isFinal` already true,
see the counterexample.) -/
theorem C1_final_marker_exactness (rs : List Chunk) (i : String)
    (h : ∀ r ∈ rs, optTruthy r.parent_id ≠ some (targetId r)) :
    IsFinalAt (foldChunks emptyStore rs) i ↔
      ∃ r ∈ rs, targetId r = i ∧ r.type = MessageType.final := by
  rw [isFinalAt_foldChunks rs emptyStore i h]
  have : ¬ IsFinalAt emptyStore i := by
    rintro ⟨n, hn, -⟩
    cases hn
  tauto

/-- A final-marker record for node `A`. -/
def c1rec : Chunk :=
  { id := some "A", parent_id := none, role := Role.assistant, name := none,
    message := "report", type := MessageType.final }

/-- A markerless record for node `B`. -/
def c1rec2 : Chunk :=
  { id := some "B", parent_id := none, role := Role.assistant, name := none,
    message := "note", type := MessageType.append }

/-- Witness for C1's amended theorem: after `[c1rec, c1rec2]` node `A`
(which received the marker) is final and node `B` (which did not) is not. -/
theorem C1_final_marker_exactness_witness :
    IsFinalAt (foldChunks emptyStore [c1rec, c1rec2]) "A" ∧
    ¬ IsFinalAt (foldChunks emptyStore [c1rec, c1rec2]) "B" := by
  constructor
  · exact (C1_final_marker_exactness [c1rec, c1rec2] "A" (by decide)).mpr
      ⟨c1rec, by simp, by decide, by decide⟩
  · intro hB
    have h := (C1_final_marker_exactness [c1rec, c1rec2] "B" (by decide)).mp hB
    revert h
    decide

/-! ### Claim C3 -/

/-- `id || 'unknown'` never yields the empty string. -/
lemma targetId_ne_empty (c : Chunk) : targetId c ≠ "" := by
  rcases c with ⟨i, p, r, nm, m, t⟩
  rcases i with _ | s
  · simp [targetId]
  · simp only [targetId]
    split
    · simp
    · assumption

lemma scopeSight_not_trigger (sc : Option String) (c : Chunk)
    (h : ¬ isTrigger c) : scopeSight sc c = sc := by
  simp [scopeSight, h]

/-- While a nonempty scope `s` is active, every record whose node id is not
`s` gets effective parent `s` (when its literal parent already is `s`, the
kept literal value is the same `s`). -/
lemma effParent_active (s : String) (c : Chunk) (hse : s ≠ "")
    (h2 : targetId c ≠ s) : effParent (some s) c = some s := by
  simp only [effParent, optTruthy, if_neg hse]
  by_cases hp : c.parent_id = some s
  · rw [if_neg, hp]
    simp [hp]
  · rw [if_pos ⟨h2, hp⟩]

/-- With no active scope, the effective parent is the literal one — also for
a trigger record, whose freshly set scope equals its own node id and is
therefore not substituted. -/
lemma effParent_cleared (c : Chunk) :
    effParent (scopeSight none c) c = c.parent_id := by
  by_cases h : isTrigger c
  · simp only [scopeSight, if_pos h, effParent, optTruthy,
      if_neg (targetId_ne_empty c)]
    simp
  · simp [scopeSight, h, effParent, optTruthy]

/-- C3: while a blocking scope `s` is active (a `run_blocking_subagent`
tool-call was sighted and its result has not arrived), any record that is not
itself a scope trigger and whose node id differs from `s` is stored with
effective parent `s` — also when its literal `parent_id` differs from `s`;
the `tool` (tool-result) record whose id equals `s` clears the scope; and
once the scope is cleared, a freshly created node is stored under its literal
parent again. -/
theorem C3_blocking_scope_reparenting (ts : Nat) (S : ScState) (s : String)
    (r r2 r3 : Chunk) (S' : ScState)
    (hs : S.scope = some s) (hse : s ≠ "")
    (h1 : ¬ isTrigger r) (h2 : targetId r ≠ s)
    (h3 : S.store.nodes (targetId r) = none)
    (h4 : r2.role = Role.tool) (h5 : targetId r2 = s)
    (h6 : S'.scope = none) (h7 : S'.store.nodes (targetId r3) = none) :
    ((processChunk004 ts S r).store.nodes (targetId r)).map
        (fun n => n.parentId) = some (some s) ∧
    (processChunk004 ts S r2).scope = none ∧
    ((processChunk004 ts S' r3).store.nodes (targetId r3)).map
        (fun n => n.parentId) = some (optTruthy r3.parent_id) := by
  refine ⟨?_, ?_, ?_⟩
  · have hsc : scopeSight S.scope r = some s := by
      rw [scopeSight_not_trigger S.scope r h1, hs]
    have heff : effParent (scopeSight S.scope r) r = some s := by
      rw [hsc]
      exact effParent_active s r hse h2
    show ((applyChunk004 ts S.store r
        (effParent (scopeSight S.scope r) r)).nodes (targetId r)).map
        (fun n => n.parentId) = some (some s)
    rw [heff, applyChunk004_fresh_parentId ts S.store r (some s) h3]
    simp [optTruthy, hse]
  · have htrig : ¬ isTrigger r2 := by
      intro hc
      rw [isTrigger] at hc
      rw [h4] at hc
      cases hc.1
    show (if r2.role = Role.tool ∧ scopeSight S.scope r2 = some (targetId r2)
          then none else scopeSight S.scope r2) = none
    rw [scopeSight_not_trigger S.scope r2 htrig, hs, h5]
    simp [h4]
  · show ((applyChunk004 ts S'.store r3
        (effParent (scopeSight S'.scope r3) r3)).nodes (targetId r3)).map
        (fun n => n.parentId) = some (optTruthy r3.parent_id)
    rw [h6, effParent_cleared r3,
      applyChunk004_fresh_parentId ts S'.store r3 r3.parent_id h7]

/-- The sibling-declared record arriving while scope `C` is open. -/
def c3sib : Chunk :=
  { id := some "D", parent_id := some "A", role := Role.assistant,
    name := none, message := "d", type := MessageType.new }

/-- The blocking call's own result, closing the scope. -/
def c3res : Chunk :=
  { id := some "C", parent_id := some "A", role := Role.tool, name := none,
    message := "done", type := MessageType.new }

/-- A record arriving after the scope has been cleared. -/
def c3post : Chunk :=
  { id := some "E", parent_id := some "A", role := Role.assistant,
    name := none, message := "e", type := MessageType.new }

/-- Witness for C3 at the spec's own example: `D` (declared under `A`) is
attached under the open scope `C`; `C`'s result clears the scope; `E` then
attaches under its literal parent `A`. -/
theorem C3_blocking_scope_reparenting_witness :
    ((processChunk004 0 { scope := some "C", store := emptyStore }
        c3sib).store.nodes "D").map (fun n => n.parentId) = some (some "C") ∧
    (processChunk004 0 { scope := some "C", store := emptyStore } c3res).scope
      = none ∧
    ((processChunk004 0 { scope := none, store := emptyStore }
        c3post).store.nodes "E").map (fun n => n.parentId) = some (some "A") := by
  have h := C3_blocking_scope_reparenting 0
    { scope := some "C", store := emptyStore } "C" c3sib c3res c3post
    { scope := none, store := emptyStore }
    rfl (by decide) (by decide) (by decide) (by decide) (by decide) (by decide)
    rfl (by decide)
  exact ⟨h.1, h.2.1, h.2.2⟩

/-! ### Claim C10 -/

/-- The id `j` appears neither in the root list nor in the children list of
any *other* node — i.e. it is unreachable from the roots. -/
def Unregistered (st : Store) (j : String) : Prop :=
  j ∉ st.roots ∧
  ∀ k nk, st.nodes k = some nk → k ≠ j → j ∉ nk.children

/-- Root-list growth: `processChunk` adds at most the (previously absent)
target id to the root list. -/
lemma processChunk_roots_sub (ts : Nat) (st : Store) (c : Chunk) (j : String)
    (hj : j ∈ (processChunk ts st c).roots) :
    j ∈ st.roots ∨ (j = targetId c ∧ st.nodes (targetId c) = none) := by
  rcases hT : st.nodes (targetId c) with _ | ex
  · rcases hP : optTruthy c.parent_id with _ | p
    · rw [processChunk_fresh_root ts st c hT hP] at hj
      simp only at hj
      split at hj
      · exact Or.inl hj
      · rcases List.mem_append.mp hj with hj' | hj'
        · exact Or.inl hj'
        · exact Or.inr ⟨List.mem_singleton.mp hj', rfl⟩
    · by_cases hps : p = targetId c
      · subst hps
        rw [processChunk_fresh_self ts st c hT hP] at hj
        exact Or.inl hj
      · rcases hpar : st.nodes p with _ | parent
        · rw [processChunk_fresh_parent_missing ts st c p hT hP hps hpar] at hj
          exact Or.inl hj
        · rw [processChunk_fresh_parent_found ts st c p parent hT hP hps hpar] at hj
          exact Or.inl hj
  · rw [processChunk_existing ts st c ex hT] at hj
    exact Or.inl hj

/-- Children-list growth: after `processChunk`, an id found in some node's
children was already there, or is the (previously absent) target id. -/
lemma processChunk_children_sub (ts : Nat) (st : Store) (c : Chunk)
    (j k : String) (nk : ResearchNode)
    (hk : (processChunk ts st c).nodes k = some nk) (hj : j ∈ nk.children) :
    (∃ nk0, st.nodes k = some nk0 ∧ j ∈ nk0.children) ∨
    (j = targetId c ∧ st.nodes (targetId c) = none) := by
  rcases hT : st.nodes (targetId c) with _ | ex
  · rcases hP : optTruthy c.parent_id with _ | p
    · rw [processChunk_fresh_root ts st c hT hP] at hk
      simp only [Store.set_nodes] at hk
      by_cases hkt : k = targetId c
      · rw [if_pos hkt] at hk
        have := (Option.some.inj hk).symm
        subst this
        rw [routeChunk_children] at hj
        simp [freshNode] at hj
      · rw [if_neg hkt] at hk
        exact Or.inl ⟨nk, hk, hj⟩
    · by_cases hps : p = targetId c
      · subst hps
        rw [processChunk_fresh_self ts st c hT hP] at hk
        simp only [Store.set_nodes] at hk
        by_cases hkt : k = targetId c
        · rw [if_pos hkt] at hk
          have := (Option.some.inj hk).symm
          subst this
          simp only at hj
          exact Or.inr ⟨List.mem_singleton.mp hj, rfl⟩
        · rw [if_neg hkt] at hk
          exact Or.inl ⟨nk, hk, hj⟩
      · rcases hpar : st.nodes p with _ | parent
        · rw [processChunk_fresh_parent_missing ts st c p hT hP hps hpar] at hk
          simp only [Store.set_nodes] at hk
          by_cases hkt : k = targetId c
          · rw [if_pos hkt] at hk
            have := (Option.some.inj hk).symm
            subst this
            rw [routeChunk_children] at hj
            simp [freshNode] at hj
          · rw [if_neg hkt] at hk
            exact Or.inl ⟨nk, hk, hj⟩
        · rw [processChunk_fresh_parent_found ts st c p parent hT hP hps hpar] at hk
          simp only [Store.set_nodes] at hk
          by_cases hkp : k = p
          · rw [if_pos hkp] at hk
            have := (Option.some.inj hk).symm
            subst this
            subst hkp
            split at hj
            · exact Or.inl ⟨parent, hpar, hj⟩
            · simp only at hj
              rcases List.mem_append.mp hj with hj' | hj'
              · exact Or.inl ⟨parent, hpar, hj'⟩
              · exact Or.inr ⟨List.mem_singleton.mp hj', rfl⟩
          · rw [if_neg hkp] at hk
            by_cases hkt : k = targetId c
            · rw [if_pos hkt] at hk
              have := (Option.some.inj hk).symm
              subst this
              rw [routeChunk_children] at hj
              simp [freshNode] at hj
            · rw [if_neg hkt] at hk
              exact Or.inl ⟨nk, hk, hj⟩
  · rw [processChunk_existing ts st c ex hT] at hk
    simp only [Store.set_nodes] at hk
    by_cases hkt : k = targetId c
    · rw [if_pos hkt] at hk
      have := (Option.some.inj hk).symm
      subst this
      rw [routeChunk_children] at hj
      exact Or.inl ⟨ex, hkt ▸ hT, hj⟩
    · rw [if_neg hkt] at hk
      exact Or.inl ⟨nk, hk, hj⟩

/-- `processChunk` never removes a node. -/
lemma processChunk_preserves_isSome (ts : Nat) (st : Store) (c : Chunk)
    (j : String) (hex : (st.nodes j).isSome = true) :
    ((processChunk ts st c).nodes j).isSome = true := by
  by_cases hj : j = targetId c
  · subst hj
    rcases hT : st.nodes (targetId c) with _ | n
    · rw [hT] at hex
      cases hex
    · rw [processChunk_nodes_target_existing ts st c n hT]
      rfl
  · rcases processChunk_nodes_other ts st c j hj with heq | ⟨parent, -, -, heq⟩
    · rw [heq]
      exact hex
    · rw [heq]
      rfl

/-- An existing id that is registered nowhere stays registered nowhere
across one record. -/
lemma unregistered_processChunk (ts : Nat) (st : Store) (c : Chunk) (j : String)
    (hex : (st.nodes j).isSome = true) (h : Unregistered st j) :
    ((processChunk ts st c).nodes j).isSome = true ∧
    Unregistered (processChunk ts st c) j := by
  have hjne : ¬ (j = targetId c ∧ st.nodes (targetId c) = none) := by
    rintro ⟨rfl, hnone⟩
    rw [hnone] at hex
    cases hex
  refine ⟨processChunk_preserves_isSome ts st c j hex, ?_, ?_⟩
  · intro hj
    rcases processChunk_roots_sub ts st c j hj with hj' | hj'
    · exact h.1 hj'
    · exact hjne hj'
  · intro k nk hk hkj hjmem
    rcases processChunk_children_sub ts st c j k nk hk hjmem with ⟨nk0, h1, h2⟩ | hj'
    · exact h.2 k nk0 h1 hkj h2
    · exact hjne hj'

/-- Fold of `unregistered_processChunk` over a whole stream. -/
lemma unregistered_foldChunks (rs : List Chunk) (st : Store) (j : String)
    (hex : (st.nodes j).isSome = true) (h : Unregistered st j) :
    ((foldChunks st rs).nodes j).isSome = true ∧
    Unregistered (foldChunks st rs) j := by
  induction rs generalizing st with
  | nil => exact ⟨hex, h⟩
  | cons r rest ih =>
      have hstep := unregistered_processChunk 0 st r j hex h
      exact ih (processChunk 0 st r) hstep.1 hstep.2

/-- A record naming itself as parent, with no node under that id yet. -/
def c10rec : Chunk :=
  { id := some "a", parent_id := some "a", role := Role.assistant,
    name := none, message := "m", type := MessageType.new }

/-- C10, counterexample: for a record whose `parent_id` names no existing
node the claim says the new node is registered in *no* children list; but
when the record names itself as parent (`parent_id = id`, both `"a"`, and no
node `"a"` exists), the created node is registered in its own children
list. -/
theorem C10_counterexample :
    emptyStore.nodes "a" = none ∧ c10rec.parent_id = some "a" ∧
    ((processChunk 0 emptyStore c10rec).nodes "a").map (fun n => n.children) =
      some ["a"] := by
  refine ⟨rfl, rfl, by decide⟩

/-- C10, amended: when a record's truthy `parent_id` names a node absent
from the store and the record's own id is also fresh, the node is created
and stored under its id, the root list is unchanged, and every *other*
entry of the store is unchanged (so the node enters no other node's
children list; a self-parenting record puts the id in its own children
list only).  If the id additionally starts unregistered, it stays outside
the root list and outside every other node's children list for the rest of
the session — unreachable from the roots. -/
theorem C10_orphan_stays_unreachable (ts : Nat) (st : Store) (c : Chunk)
    (p : String)
    (h1 : optTruthy c.parent_id = some p) (h2 : st.nodes p = none)
    (h3 : st.nodes (targetId c) = none)
    (h4 : targetId c ∉ st.roots)
    (h5 : ∀ k nk, st.nodes k = some nk → k ≠ targetId c →
       targetId c ∉ nk.children) :
    (((processChunk ts st c).nodes (targetId c)).isSome = true) ∧
    (processChunk ts st c).roots = st.roots ∧
    (∀ k, k ≠ targetId c → (processChunk ts st c).nodes k = st.nodes k) ∧
    (∀ rs, targetId c ∉ (foldChunks (processChunk ts st c) rs).roots ∧
       ∀ k nk, (foldChunks (processChunk ts st c) rs).nodes k = some nk →
         k ≠ targetId c → targetId c ∉ nk.children) := by
  have hset : ∃ nstar, processChunk ts st c = st.set (targetId c) nstar := by
    by_cases hps : p = targetId c
    · subst hps
      exact ⟨_, processChunk_fresh_self ts st c h3 h1⟩
    · exact ⟨_, processChunk_fresh_parent_missing ts st c p h3 h1 hps h2⟩
  obtain ⟨nstar, hst'⟩ := hset
  have hcstar : targetId c ∉ nstar.children ∨ nstar.children = [targetId c] := by
    by_cases hps : p = targetId c
    · subst hps
      rw [processChunk_fresh_self ts st c h3 h1] at hst'
      have : nstar = { freshNode ts c with children := [targetId c] } := by
        have := congrArg (fun s => s.nodes (targetId c)) hst'
        simp [Store.set_nodes] at this
        exact this.symm
      rw [this]
      exact Or.inr rfl
    · rw [processChunk_fresh_parent_missing ts st c p h3 h1 hps h2] at hst'
      have : nstar = routeChunk c (freshNode ts c) := by
        have := congrArg (fun s => s.nodes (targetId c)) hst'
        simp [Store.set_nodes] at this
        exact this.symm
      rw [this, routeChunk_children]
      exact Or.inl (by simp [freshNode])
  have hexist : ((processChunk ts st c).nodes (targetId c)).isSome = true := by
    rw [hst']
    simp [Store.set_nodes]
  have hroots : (processChunk ts st c).roots = st.roots := by
    rw [hst']
    rfl
  have hframe : ∀ k, k ≠ targetId c →
      (processChunk ts st c).nodes k = st.nodes k := by
    intro k hk
    rw [hst']
    simp [Store.set_nodes, hk]
  refine ⟨hexist, hroots, hframe, ?_⟩
  intro rs
  have hunreg : Unregistered (processChunk ts st c) (targetId c) := by
    constructor
    · rw [hroots]
      exact h4
    · intro k nk hk hkj
      rw [hframe k hkj] at hk
      exact h5 k nk hk hkj
  have := unregistered_foldChunks rs (processChunk ts st c) (targetId c)
    hexist hunreg
  exact ⟨this.2.1, this.2.2⟩

/-- A record whose parent id names an absent node. -/
def c10orphan : Chunk :=
  { id := some "z", parent_id := some "ghost", role := Role.assistant,
    name := none, message := "m", type := MessageType.new }

/-- A later record that could have attached `z` somewhere (but does not). -/
def c10later : Chunk :=
  { id := some "w", parent_id := some "z", role := Role.assistant,
    name := none, message := "m2", type := MessageType.new }

/-- Witness for C10's amended theorem: the orphan `z` is stored but never
rooted nor linked, even after further records. -/
theorem C10_orphan_stays_unreachable_witness :
    (((processChunk 0 emptyStore c10orphan).nodes "z").isSome = true) ∧
    (processChunk 0 emptyStore c10orphan).roots = emptyStore.roots ∧
    "z" ∉ (foldChunks (processChunk 0 emptyStore c10orphan) [c10later]).roots := by
  have h := C10_orphan_stays_unreachable 0 emptyStore c10orphan "ghost"
    (by decide) rfl rfl (by decide) (fun k nk hk _ => by cases hk)
  exact ⟨h.1, h.2.1, (h.2.2.2 [c10later]).1⟩

/-! ### Claim C6 -/

/-- Ordered concatenation of a list of fragments. -/
def concatMsgs (l : List String) : String :=
  l.foldl (fun a b => a ++ b) ""

lemma concatMsgs_foldl_init (l : List String) (a : String) :
    l.foldl (fun x y => x ++ y) a = a ++ concatMsgs l := by
  induction l generalizing a with
  | nil => simp [concatMsgs]
  | cons b l ih =>
      show (l.foldl (fun x y => x ++ y) (a ++ b)) = _
      rw [ih (a ++ b)]
      have hb : concatMsgs (b :: l) = b ++ concatMsgs l := by
        show (l.foldl (fun x y => x ++ y) ("" ++ b)) = _
        rw [ih ("" ++ b)]
        simp
      rw [hb, String.append_assoc]

lemma concatMsgs_append (l1 l2 : List String) :
    concatMsgs (l1 ++ l2) = concatMsgs l1 ++ concatMsgs l2 := by
  show (l1 ++ l2).foldl (fun x y => x ++ y) "" = _
  rw [List.foldl_append, concatMsgs_foldl_init]
  rfl

/-- The message fragments of the records for id `i` routed to `content`
(role neither `tool` nor `tool_call`). -/
def contentFragments (rs : List Chunk) (i : String) : List String :=
  (rs.filter (fun r =>
    decide (targetId r = i ∧ r.role ≠ Role.tool ∧ r.role ≠ Role.tool_call))).map
    (fun r => r.message)

/-- The fragments of the records for id `i` routed to `toolArgs`. -/
def argsFragments (rs : List Chunk) (i : String) : List String :=
  (rs.filter (fun r => decide (targetId r = i ∧ r.role = Role.tool_call))).map
    (fun r => r.message)

/-- The fragments of the records for id `i` routed to `toolResult`. -/
def resFragments (rs : List Chunk) (i : String) : List String :=
  (rs.filter (fun r => decide (targetId r = i ∧ r.role = Role.tool))).map
    (fun r => r.message)

lemma filterMap_msg_append (p : Chunk → Bool) (l : List Chunk) (r : Chunk) :
    ((l ++ [r]).filter p).map (fun c => c.message) =
      ((l.filter p).map (fun c => c.message)) ++
        (if p r then [r.message] else []) := by
  rw [List.filter_append]
  rcases hp : p r with _ | _
  · simp [List.filter, hp]
  · simp [List.filter, hp]

lemma filter_sub_empty (l : List Chunk) (i : String)
    (h : l.filter (fun r => decide (targetId r = i)) = []) (p : Chunk → Bool)
    (hp : ∀ r, p r = true → targetId r = i) :
    l.filter p = [] := by
  rw [List.filter_eq_nil] at h ⊢
  intro a ha hpa
  exact h a ha (by simp [hp a hpa])

lemma foldChunks_append_singleton (st : Store) (rs : List Chunk) (r : Chunk) :
    foldChunks st (rs ++ [r]) = processChunk 0 (foldChunks st rs) r := by
  simp [foldChunks, List.foldl_append]

/-- Routing one record for id `i` extends each accumulator by exactly the
fragment the record contributes to it. -/
lemma route_step_fragments (r : Chunk) (i : String) (l : List Chunk)
    (n : ResearchNode) (hti : targetId r = i)
    (hc : n.content = concatMsgs (contentFragments l i))
    (ha : n.toolArgs = some (concatMsgs (argsFragments l i)))
    (hres : n.toolResult = some (concatMsgs (resFragments l i))) :
    (routeChunk r n).content = concatMsgs (contentFragments (l ++ [r]) i) ∧
    (routeChunk r n).toolArgs = some (concatMsgs (argsFragments (l ++ [r]) i)) ∧
    (routeChunk r n).toolResult = some (concatMsgs (resFragments (l ++ [r]) i)) := by
  refine ⟨?_, ?_, ?_⟩
  · rw [routeChunk_content, hc]
    unfold contentFragments
    rw [filterMap_msg_append, concatMsgs_append]
    congr 1
    by_cases hrole : r.role ≠ Role.tool ∧ r.role ≠ Role.tool_call
    · rw [if_pos hrole, if_pos (by simp [hti, hrole])]
      show r.message = concatMsgs [r.message]
      simp [concatMsgs]
    · rw [if_neg hrole, if_neg (by simp [hti]; tauto)]
      rfl
  · rw [routeChunk_toolArgs, ha]
    unfold argsFragments
    rw [filterMap_msg_append, concatMsgs_append]
    by_cases hrole : r.role = Role.tool_call
    · rw [if_pos hrole, if_pos (by simp [hti, hrole])]
      simp [concatMsgs]
    · rw [if_neg hrole, if_neg (by simp [hti, hrole])]
      simp [concatMsgs]
  · rw [routeChunk_toolResult, hres]
    unfold resFragments
    rw [filterMap_msg_append, concatMsgs_append]
    by_cases hrole : r.role = Role.tool
    · rw [if_pos hrole, if_pos (by simp [hti, hrole])]
      simp [concatMsgs]
    · rw [if_neg hrole, if_neg (by simp [hti, hrole])]
      simp [concatMsgs]

/-- Invariant built up by the stream fold: node `i` exists iff some record
targeted it, and each of its three accumulators equals the ordered
concatenation of the fragments routed to it. -/
lemma accum_foldChunks (rs : List Chunk) (i : String)
    (h : ∀ r ∈ rs, targetId r = i → optTruthy r.parent_id ≠ some i) :
    ((foldChunks emptyStore rs).nodes i = none ∧
       rs.filter (fun r => decide (targetId r = i)) = []) ∨
    (∃ n, (foldChunks emptyStore rs).nodes i = some n ∧
       n.content = concatMsgs (contentFragments rs i) ∧
       n.toolArgs = some (concatMsgs (argsFragments rs i)) ∧
       n.toolResult = some (concatMsgs (resFragments rs i))) := by
  induction rs using List.reverseRecOn with
  | nil => exact Or.inl ⟨rfl, rfl⟩
  | append_singleton l r ih =>
      have hl : ∀ r' ∈ l, targetId r' = i → optTruthy r'.parent_id ≠ some i :=
        fun r' hr' => h r' (by simp [hr'])
      have hself : targetId r = i → optTruthy r.parent_id ≠ some i :=
        h r (by simp)
      rw [foldChunks_append_singleton]
      by_cases hti : targetId r = i
      · have hns : optTruthy r.parent_id ≠ some (targetId r) := by
          rw [hti]
          exact hself hti
        rcases ih hl with ⟨hnone, htgt⟩ | ⟨n, hn, hc, ha, hres⟩
        · right
          have hn' := processChunk_nodes_target_fresh 0 (foldChunks emptyStore l) r
            (by rw [hti]; exact hnone) hns
          rw [hti] at hn'
          have hcl : contentFragments l i = [] := by
            unfold contentFragments
            rw [filter_sub_empty l i htgt _ (fun r' h' => (of_decide_eq_true h').1)]
            rfl
          have hal : argsFragments l i = [] := by
            unfold argsFragments
            rw [filter_sub_empty l i htgt _ (fun r' h' => (of_decide_eq_true h').1)]
            rfl
          have hrl : resFragments l i = [] := by
            unfold resFragments
            rw [filter_sub_empty l i htgt _ (fun r' h' => (of_decide_eq_true h').1)]
            rfl
          have hstep := route_step_fragments r i l (freshNode 0 r) hti
            (by simp [freshNode, hcl, concatMsgs])
            (by simp [freshNode, hal, concatMsgs])
            (by simp [freshNode, hrl, concatMsgs])
          exact ⟨routeChunk r (freshNode 0 r), hn', hstep.1, hstep.2.1, hstep.2.2⟩
        · right
          have hn2 := processChunk_nodes_target_existing 0 (foldChunks emptyStore l)
            r n (by rw [hti]; exact hn)
          rw [hti] at hn2
          have hstep := route_step_fragments r i l n hti hc ha hres
          exact ⟨routeChunk r n, hn2, hstep.1, hstep.2.1, hstep.2.2⟩
      · have hne : i ≠ targetId r := fun he => hti he.symm
        have hcf : contentFragments (l ++ [r]) i = contentFragments l i := by
          unfold contentFragments
          rw [filterMap_msg_append, if_neg (by simp [hti])]
          simp
        have haf : argsFragments (l ++ [r]) i = argsFragments l i := by
          unfold argsFragments
          rw [filterMap_msg_append, if_neg (by simp [hti])]
          simp
        have hrf : resFragments (l ++ [r]) i = resFragments l i := by
          unfold resFragments
          rw [filterMap_msg_append, if_neg (by simp [hti])]
          simp
        rcases ih hl with ⟨hnone, htgt⟩ | ⟨n, hn, hc, ha, hres⟩
        · left
          constructor
          · rcases processChunk_nodes_other 0 (foldChunks emptyStore l) r i hne with
              heq | ⟨parent, hp, -, -⟩
            · rw [heq]
              exact hnone
            · rw [hnone] at hp
              cases hp
          · rw [List.filter_append, htgt]
            simp [List.filter, hti]
        · right
          rcases processChunk_nodes_other 0 (foldChunks emptyStore l) r i hne with
            heq | ⟨parent, hp, -, heq⟩
          · exact ⟨n, by rw [heq]; exact hn, by rw [hcf]; exact hc,
              by rw [haf]; exact ha, by rw [hrf]; exact hres⟩
          · rw [hn] at hp
            have hpn : parent = n := (Option.some.inj hp).symm
            subst hpn
            exact ⟨_, heq, by rw [hcf]; exact hc, by rw [haf]; exact ha,
              by rw [hrf]; exact hres⟩

/-- A record naming itself as parent on creation. -/
def c6self : Chunk :=
  { id := some "a", parent_id := some "a", role := Role.assistant,
    name := none, message := "hi", type := MessageType.append }

/-- C6, counterexample: a record whose `parent_id` equals its own id, applied
at creation, has its fragment dropped (the source mutates an object that has
just been displaced from the map by the parent-clone write), so the stored
content is `""` while the ordered concatenation of routed fragments is
`"hi"`. -/
theorem C6_counterexample :
    ((foldChunks emptyStore [c6self]).nodes "a").map (fun n => n.content) =
      some "" ∧
    concatMsgs (contentFragments [c6self] "a") = "hi" ∧
    ("" : String) ≠ "hi" := by
  refine ⟨by decide, by decide, by decide⟩

/-- C6, amended: for every node id and every accumulator, after any sequence
of records in which no record for that id names itself as parent, the
accumulator's text equals the ordered concatenation of the message fragments
of the records for that id routed to it by role (`content` for roles other
than `tool`/`tool_call`, `toolArgs` for `tool_call`, `toolResult` for
`tool`).  A record whose `parent_id` equals its own id at creation time loses
its fragment (see the counterexample). -/
theorem C6_append_concatenation (rs : List Chunk) (i : String)
    (n : ResearchNode)
    (h : ∀ r ∈ rs, targetId r = i → optTruthy r.parent_id ≠ some i)
    (hn : (foldChunks emptyStore rs).nodes i = some n) :
    n.content = concatMsgs (contentFragments rs i) ∧
    n.toolArgs = some (concatMsgs (argsFragments rs i)) ∧
    n.toolResult = some (concatMsgs (resFragments rs i)) := by
  rcases accum_foldChunks rs i h with ⟨hnone, -⟩ | ⟨n', hn', hc, ha, hres⟩
  · rw [hnone] at hn
    cases hn
  · rw [hn'] at hn
    have := (Option.some.inj hn).symm
    subst this
    exact ⟨hc, ha, hres⟩

/-- First fragment of an assistant message for node `A`. -/
def c6r1 : Chunk :=
  { id := some "A", parent_id := none, role := Role.assistant, name := none,
    message := "Hel", type := MessageType.new }

/-- Second fragment of the same message. -/
def c6r2 : Chunk :=
  { id := some "A", parent_id := none, role := Role.assistant, name := none,
    message := "lo", type := MessageType.append }

/-- Witness for C6's amended theorem: two appended fragments concatenate. -/
theorem C6_append_concatenation_witness :
    ({ id := "A", parentId := none, role := Role.assistant, name := "Unknown",
       content := "Hello", toolArgs := some "", toolResult := some "",
       children := [], status := NodeStatus.streaming, timestamp := 0,
       isFinal := false } : ResearchNode).content =
      concatMsgs (contentFragments [c6r1, c6r2] "A") := by
  have h := C6_append_concatenation [c6r1, c6r2] "A"
    { id := "A", parentId := none, role := Role.assistant, name := "Unknown",
      content := "Hello", toolArgs := some "", toolResult := some "",
      children := [], status := NodeStatus.streaming, timestamp := 0,
      isFinal := false }
    (by decide) (by decide)
  exact h.1

/-! ### Claim C2 -/

/-- One history record adds exactly its node id to the key set of the
temporary map (parent attachment only rewrites an existing key). -/
lemma processHistoryNode_isSome (st : Store) (m : DisplayMsg)
    (pid : Option String) (fb : String) (i : String) :
    ((processHistoryNode st m pid fb).nodes i).isSome = true ↔
      (st.nodes i).isSome = true ∨ i = histNodeId m fb := by
  rcases hT : st.nodes (histNodeId m fb) with _ | n
  · rcases hP : optTruthy (histEffParent m pid) with _ | p
    · rw [processHistoryNode_fresh_root st m pid fb hT hP]
      by_cases hi : i = histNodeId m fb
      · simp [Store.set_nodes, hi]
      · simp [Store.set_nodes, hi]
    · rw [processHistoryNode_fresh_parent st m pid fb p hT hP]
      simp only []
      by_cases hpn : p = histNodeId m fb
      · subst hpn
        rw [show (st.set (histNodeId m fb) (histFreshNode m pid fb)).nodes
              (histNodeId m fb) = some (histFreshNode m pid fb) by
            simp [Store.set_nodes]]
        by_cases hi : i = histNodeId m fb
        · simp [Store.set_nodes, hi]
        · simp [Store.set_nodes, hi]
      · rw [show (st.set (histNodeId m fb) (histFreshNode m pid fb)).nodes p =
              st.nodes p by simp [Store.set_nodes, hpn]]
        rcases hq : st.nodes p with _ | parent
        · by_cases hi : i = histNodeId m fb
          · simp [Store.set_nodes, hi]
          · simp [Store.set_nodes, hi]
        · by_cases hip : i = p
          · subst hip
            simp [Store.set_nodes, hpn, hq]
          · by_cases hi : i = histNodeId m fb
            · simp [Store.set_nodes, hi, hip, Ne.symm hpn]
            · simp [Store.set_nodes, hi, hip]
  · rw [processHistoryNode_merge st m pid fb n hT]
    by_cases hi : i = histNodeId m fb
    · subst hi
      simp [Store.set_nodes, hT]
    · simp [Store.set_nodes, hi]

/-- Key set of the reconstruction fold, for records that all carry explicit
nonempty ids: exactly the ids of the processed records (plus what was already
there). -/
lemma reconstructAux_isSome (msgs : List DisplayMsg) (uuid : String)
    (idx : Nat) (st : Store) (i : String)
    (hid : ∀ m ∈ msgs, ∃ s, m.id = some s ∧ s ≠ "") :
    ((reconstructAux uuid idx st msgs).nodes i).isSome = true ↔
      (st.nodes i).isSome = true ∨
        i ∈ msgs.map (fun m => m.id.getD "") := by
  induction msgs generalizing idx st with
  | nil => simp [reconstructAux]
  | cons m rest ih =>
      obtain ⟨s, hs, hne⟩ := hid m (by simp)
      have hnodeId : ∀ fb, histNodeId m fb = s := by
        intro fb
        simp [histNodeId, hs, hne]
      have hgetD : m.id.getD "" = s := by simp [hs]
      have hstep : reconstructAux uuid idx st (m :: rest) =
          reconstructAux uuid (idx + 1)
            (processHistoryNode st m none (uuid ++ "_" ++ toString idx)) rest := rfl
      rw [hstep, ih (idx + 1) _ (fun m' hm' => hid m' (by simp [hm'])),
        processHistoryNode_isSome, hnodeId]
      simp [hgetD, or_assoc]

/-- First history record: root node `A`. -/
def c2mA : DisplayMsg :=
  { id := some "A", parent_id := none, role := Role.assistant, name := none,
    message := "a", type := none }

/-- Second history record: node `B`, declared child of `A`. -/
def c2mB : DisplayMsg :=
  { id := some "B", parent_id := some "A", role := Role.assistant,
    name := none, message := "b", type := none }

/-- C2, counterexample: the two orders of the same two records are a
permutation of each other, yet reconstructing `[A, B]` attaches `B` under `A`
(`A.children = ["B"]`) while reconstructing `[B, A]` does not
(`A.children = []`): a child processed before its parent is never attached,
so reconstruction is not order-independent. -/
theorem C2_counterexample :
    [c2mA, c2mB].Perm [c2mB, c2mA] ∧
    ((reconstructBatch "u" [c2mA, c2mB]).nodes "A").map (fun n => n.children) =
      some ["B"] ∧
    ((reconstructBatch "u" [c2mB, c2mA]).nodes "A").map (fun n => n.children) =
      some [] ∧
    (["B"] : List String) ≠ [] := by
  exact ⟨List.Perm.swap c2mB c2mA [], by decide, by decide, by decide⟩

/-- C2, amended: for records that all carry explicit nonempty ids,
reconstructing from any permutation of the same flat record list yields the
same *set of node ids*; the parent/child edges, the root list and the merged
accumulator texts, however, depend on the processing order (see the
counterexample). -/
theorem C2_id_set_permutation_invariant (l1 l2 : List DisplayMsg)
    (u1 u2 : String) (k1 k2 : Nat) (i : String)
    (hperm : l1.Perm l2)
    (hid : ∀ m ∈ l1, ∃ s, m.id = some s ∧ s ≠ "") :
    (((reconstructAux u1 k1 emptyStore l1).nodes i).isSome = true ↔
     ((reconstructAux u2 k2 emptyStore l2).nodes i).isSome = true) := by
  have hid2 : ∀ m ∈ l2, ∃ s, m.id = some s ∧ s ≠ "" :=
    fun m hm => hid m (hperm.mem_iff.mpr hm)
  rw [reconstructAux_isSome l1 u1 k1 emptyStore i hid,
    reconstructAux_isSome l2 u2 k2 emptyStore i hid2]
  have hmem := (hperm.map (fun m => m.id.getD "")).mem_iff (a := i)
  constructor
  · rintro (hemp | hm)
    · cases hemp
    · exact Or.inr (hmem.mp hm)
  · rintro (hemp | hm)
    · cases hemp
    · exact Or.inr (hmem.mpr hm)

/-- Witness for C2's amended theorem: both orders of `[A, B]` produce node
`A`. -/
theorem C2_id_set_permutation_invariant_witness :
    (((reconstructAux "u" 0 emptyStore [c2mA, c2mB]).nodes "A").isSome = true ↔
     ((reconstructAux "v" 7 emptyStore [c2mB, c2mA]).nodes "A").isSome = true) :=
  C2_id_set_permutation_invariant [c2mA, c2mB] [c2mB, c2mA] "u" "v" 0 7 "A"
    (List.Perm.swap c2mB c2mA [])
    (by intro m hm
        rcases List.mem_cons.mp hm with rfl | hm'
        · exact ⟨"A", rfl, by decide⟩
        · rcases List.mem_cons.mp hm' with rfl | hm''
          · exact ⟨"B", rfl, by decide⟩
          · cases hm'')

end DeepResearch
